import Mathlib

/-!
Shallow embedding of `src/Compiler.ts` from esbuild-dev: the build-session
registry (`Compiler` class) that maps source files to incremental esbuild
processes, groups files per tsconfig project, fans out rebuilds, and
invalidates the build set.  Strings are modelled as `List Char`; the external
collaborators (TypeScript config discovery, the esbuild service, rebuild and
dispose outcomes) are modelled as an oracle environment.  The model targets
the non-win32 branch of `startBuilding` (`process.platform !== "win32"`).
-/

namespace EsbuildDev

/-- Strings of the model, as lists of characters. -/
abbrev Str := List Char

/-- JS `String.prototype.replace` with a plain-string pattern: only the first
occurrence of `pat` (scanning from the left) is replaced by `repl`.  Used by
`destination` for `filename.replace(this.workspaceRoot, "")`. -/
def replaceFirst (pat repl : Str) : Str → Str
  | [] => if pat.isPrefixOf ([] : Str) then repl else []
  | c :: rest =>
    if pat.isPrefixOf (c :: rest) then repl ++ (c :: rest).drop pat.length
    else c :: replaceFirst pat repl rest

/-- The ECMAScript line terminators, which `.` in a regex without the `s`
flag does not match: LF, CR, LINE SEPARATOR (U+2028) and PARAGRAPH
SEPARATOR (U+2029). -/
def isLineTerminator (c : Char) : Bool :=
  c == '\n' || c == '\r' || c == '\u2028' || c == '\u2029'

/-- The regex replacement `.replace(/.tsx?$/, ".js")` of `destination`: the
pattern is one unescaped dot — matching any character other than a line
terminator — then `ts`, then an optional `x`, anchored at the end of the
input (no `m` flag, so `$` is the very end); the leftmost such match (the
four-character one when the string ends in `tsx`, else the three-character
one when it ends in `ts`) is replaced by `.js`. -/
def replaceTsx (s : Str) : Str :=
  if s.drop (s.length - 3) = ('t' :: 's' :: 'x' :: []) ∧ 4 ≤ s.length ∧
      isLineTerminator (s.getD (s.length - 4) ' ') = false then
    s.take (s.length - 4) ++ ('.' :: 'j' :: 's' :: [])
  else if s.drop (s.length - 2) = ('t' :: 's' :: []) ∧ 3 ≤ s.length ∧
      isLineTerminator (s.getD (s.length - 3) ' ') = false then
    s.take (s.length - 3) ++ ('.' :: 'j' :: 's' :: [])
  else s

/-- Prepend a character to the first segment of a segment list. -/
def consHead (c : Char) : List Str → List Str
  | [] => [(c :: [])]
  | s :: ss => (c :: s) :: ss

/-- Split a path into its `/`-separated segments (Node posix semantics; empty
segments are kept here and dropped during normalisation). -/
def splitSlash : Str → List Str
  | [] => [[]]
  | c :: rest => if c = '/' then [] :: splitSlash rest else consHead c (splitSlash rest)

/-- Join segments back with `/` separators. -/
def joinSegs : List Str → Str
  | [] => []
  | s :: [] => s
  | s :: t :: rest => s ++ '/' :: joinSegs (t :: rest)

/-- One step of Node's posix `normalizeString`: drop empty and `.` segments,
let `..` pop the previous segment (kept literally when above the root of a
relative path, dropped above the root of an absolute one). -/
def normStep (allowAboveRoot : Bool) (acc : List Str) (seg : Str) : List Str :=
  if seg = [] ∨ seg = ('.' :: []) then acc
  else if seg = ('.' :: '.' :: []) then
    match acc.getLast? with
    | some l => if l = ('.' :: '.' :: []) then acc ++ [seg] else acc.dropLast
    | none => if allowAboveRoot then [seg] else []
  else acc ++ [seg]

/-- Final assembly of Node `path.posix.normalize`: restore the `.` for an
empty relative result, the trailing separator, and the leading separator. -/
def normAssemble (isAbs trailing : Bool) (core : Str) : Str :=
  let c1 := if core = [] ∧ isAbs = false then ('.' :: []) else core
  let c2 := if c1 ≠ [] ∧ trailing = true then c1 ++ ('/' :: []) else c1
  if isAbs = true then '/' :: c2 else c2

/-- Node `path.posix.normalize`. -/
def normalizePath (p : Str) : Str :=
  if p = [] then ('.' :: []) else
  normAssemble (p.head? == some '/') (p.getLast? == some '/')
    (joinSegs ((splitSlash p).foldl (normStep (!(p.head? == some '/'))) []))

/-- Node `path.posix.join` restricted to two arguments, as used by
`destination`: concatenate the non-empty arguments with a separator and
normalise. -/
def pathJoin (a b : Str) : Str :=
  if a = [] ∧ b = [] then ('.' :: [])
  else if a = [] then normalizePath b
  else if b = [] then normalizePath a
  else normalizePath (a ++ '/' :: b)

/-- Errors thrown by `getTSConfig`: either `ts.findConfigFile` found nothing
(`couldnt find tsconfig.json near ...`) or the parsed config carried
diagnostics (their message texts joined). -/
inductive ResolveError
  | configNotFound (filename : Str)
  | configParseError (messages : List Str)
deriving DecidableEq

/-- Entries written to the error log by `reportESBuildErrors` (`log.error`):
a failed `service.build` call (identified by its start-invocation index) or a
failed per-build `rebuild()` (identified by the build handle). -/
inductive LogEntry
  | buildStartError (n : Nat)
  | rebuildError (b : Nat)
deriving DecidableEq

/-- The mutable fields of the `Compiler` class, plus instrumentation that
records the interactions with the external collaborators: `disposed` records
every `rebuild.dispose()` invocation, `rebuilt` every per-build `rebuild()`
invocation, `startCount` the number of `service.build` invocations,
`resolveCount` the number of `getTSConfig` invocations, and `errorLog` the
`log.error` output.  Build handles are natural numbers issued by
`nextHandle`. -/
@[ext]
structure CompilerState where
  workspaceRoot : Str
  workDir : Str
  builds : List Nat
  fileMap : Str → Option Nat
  tsConfigMap : Str → Option Nat
  groupMap : Str → Option (List Str)
  nextHandle : Nat
  startCount : Nat
  resolveCount : Nat
  disposed : List Nat
  rebuilt : List Nat
  errorLog : List LogEntry

/-- The oracle environment for the external collaborators: `findConfig`
models `ts.findConfigFile` (walking upward from the file), `readConfig`
models `ts.readConfigFile` plus `ts.parseJsonConfigFileContent` (returning
the diagnostics and the project's ordered file list for a manifest path),
`startOk n` the outcome of the n-th `service.build` call, `rebuildOk b` the
outcome of `rebuild()` on handle `b`, and `disposeOk b` the outcome of
`rebuild.dispose()` on handle `b`. -/
structure Env where
  findConfig : Str → Option Str
  readConfig : Str → List Str × List Str
  startOk : Nat → Bool
  rebuildOk : Nat → Bool
  disposeOk : Nat → Bool

/-- The state of a freshly constructed `Compiler` (all maps and lists
empty). -/
def initState (root wd : Str) : CompilerState where
  workspaceRoot := root
  workDir := wd
  builds := []
  fileMap := fun _ => none
  tsConfigMap := fun _ => none
  groupMap := fun _ => none
  nextHandle := 0
  startCount := 0
  resolveCount := 0
  disposed := []
  rebuilt := []
  errorLog := []

/-- The `destination` arrow function:
`path.join(this.workDir, filename.replace(this.workspaceRoot, "").replace(/.tsx?$/, ".js"))`. -/
def destination (s : CompilerState) (filename : Str) : Str :=
  pathJoin s.workDir (replaceTsx (replaceFirst s.workspaceRoot [] filename))

/-- The `reportESBuildErrors` wrapper: a successful action passes through,
a thrown error is appended to the log (`log.error`) and swallowed. -/
def reportESBuildErrors (s : CompilerState) (r : Except LogEntry α) :
    CompilerState × Option α :=
  match r with
  | .ok a => (s, some a)
  | .error e => ({ s with errorLog := s.errorLog ++ [e] }, none)

/-- The `getTSConfig` method: `ts.findConfigFile` either fails (throw) or
yields a manifest whose parsed content either carries diagnostics (throw the
joined messages) or yields the project file list. -/
def getTSConfig (env : Env) (s : CompilerState) (filename : Str) :
    CompilerState × Except ResolveError (Str × List Str) :=
  let s₁ : CompilerState := { s with resolveCount := s.resolveCount + 1 }
  match env.findConfig filename with
  | none => (s₁, .error (.configNotFound filename))
  | some tsConfigFile =>
    let cfg := env.readConfig tsConfigFile
    if cfg.1 = [] then (s₁, .ok (tsConfigFile, cfg.2))
    else (s₁, .error (.configParseError cfg.1))

/-- The `service.build` call inside `startBuilding`: on success it yields a
fresh build handle, on failure it throws; either way one start invocation is
consumed. -/
def serviceBuild (env : Env) (s : CompilerState) :
    CompilerState × Except LogEntry Nat :=
  if env.startOk s.startCount then
    ({ s with startCount := s.startCount + 1, nextHandle := s.nextHandle + 1 },
      .ok s.nextHandle)
  else
    ({ s with startCount := s.startCount + 1 },
      .error (.buildStartError s.startCount))

/-- The registration statements after a successful `service.build`:
`tsConfigMap[tsConfigFile] = build`, `builds.push(build)`, and for every
`file of fileNames` both `fileMap[file] = build` and
`groupMap[file] = fileNames`. -/
def registerBuild (s : CompilerState) (tsConfigFile : Str)
    (fileNames : List Str) (b : Nat) : CompilerState :=
  { s with
    tsConfigMap := fun m => if m = tsConfigFile then some b else s.tsConfigMap m
    builds := s.builds ++ [b]
    fileMap := fun g => if g ∈ fileNames then some b else s.fileMap g
    groupMap := fun g => if g ∈ fileNames then some fileNames else s.groupMap g }

/-- The `startBuilding` method: early return on a `fileMap` hit, propagate
`getTSConfig` errors, early return on a `tsConfigMap` hit, otherwise run the
build-and-register action under `reportESBuildErrors` (so a failed
`service.build` is logged and swallowed, and none of the registration
statements run). -/
def startBuilding (env : Env) (s : CompilerState) (filename : Str) :
    CompilerState × Option ResolveError :=
  if (s.fileMap filename).isSome then (s, none)
  else
    match getTSConfig env s filename with
    | (s₁, .error e) => (s₁, some e)
    | (s₁, .ok (tsConfigFile, fileNames)) =>
      if (s₁.tsConfigMap tsConfigFile).isSome then (s₁, none)
      else
        match serviceBuild env s₁ with
        | (s₂, .ok b) =>
          ((reportESBuildErrors (registerBuild s₂ tsConfigFile fileNames b)
              (Except.ok fileNames)).1, none)
        | (s₂, .error e) =>
          ((reportESBuildErrors s₂ (Except.error (α := List Str) e)).1, none)

/-- The `compile` method: `await startBuilding(filename)` then return
`destination(filename)`; a `getTSConfig` error propagates to the caller. -/
def compileRun (env : Env) (s : CompilerState) (filename : Str) :
    CompilerState × Except ResolveError Str :=
  match startBuilding env s filename with
  | (s₁, none) => (s₁, .ok (destination s₁ filename))
  | (s₁, some e) => (s₁, .error e)

/-- One `build.rebuild()` invocation inside the `rebuild` fan-out, wrapped by
`reportESBuildErrors`: the invocation is always recorded, a failure is only
logged. -/
def rebuildStep (env : Env) (s : CompilerState) (b : Nat) : CompilerState :=
  let s₁ : CompilerState := { s with rebuilt := s.rebuilt ++ [b] }
  (reportESBuildErrors s₁
    (if env.rebuildOk b then Except.ok () else Except.error (.rebuildError b))).1

/-- The `rebuild` method: `Promise.all` over
`builds.map((build) => reportESBuildErrors(() => build.rebuild()))`; every
build is attempted and the method itself never throws (modelled as a total
function, the concurrent fan-out serialised in list order). -/
def rebuildRun (env : Env) (s : CompilerState) : CompilerState :=
  s.builds.foldl (rebuildStep env) s

/-- The `invalidateBuildSet` method:
`await Promise.all(builds.map((build) => build.rebuild.dispose()))` followed
by `builds = []; fileMap = {}; tsConfigMap = {}`.  All dispose invocations
are issued (recorded in `disposed`); if any of them fails the `Promise.all`
rejects, the method throws (`false` in the returned flag) and the three
clearing assignments never run.  Note the source never clears `groupMap`. -/
def invalidateRun (env : Env) (s : CompilerState) : CompilerState × Bool :=
  let s₁ : CompilerState := { s with disposed := s.disposed ++ s.builds }
  if s.builds.all (fun b => env.disposeOk b) then
    ({ s₁ with
        builds := []
        fileMap := fun _ => none
        tsConfigMap := fun _ => none }, true)
  else (s₁, false)

/-- The `fileGroup` method: `groupMap[filename]` (a miss makes the method
throw on `files.map`, modelled as `none`), then the ordered association list
passed to `Object.fromEntries`: one entry `file → destination(file)` per
group member, in group order. -/
def fileGroup (s : CompilerState) (filename : Str) :
    Option (List (Str × Str)) :=
  (s.groupMap filename).map (fun files => files.map (fun f => (f, destination s f)))

/-- The session operations a caller can issue (the `stop` method touches only
the esbuild service connection, not the registry, and is omitted). -/
inductive Op
  | compile (f : Str)
  | rebuild
  | invalidate
deriving DecidableEq

/-- Run one operation, keeping the state that the mutations left behind even
when the operation itself threw (JS mutations persist across a throw). -/
def runOp (env : Env) (s : CompilerState) : Op → CompilerState
  | .compile f => (compileRun env s f).1
  | .rebuild => rebuildRun env s
  | .invalidate => (invalidateRun env s).1

/-- Run a sequence of operations from a given state. -/
def run (env : Env) (s : CompilerState) (ops : List Op) : CompilerState :=
  ops.foldl (runOp env) s

/-- A path whose `/`-separated segments are all nonempty and none of them is
`.` or `..`; such paths pass through posix normalisation untouched. -/
def goodSegs (p : Str) : Bool :=
  (splitSlash p).all
    (fun seg => !(seg == ([] : Str)) && !(seg == ('.' :: [])) && !(seg == ('.' :: '.' :: [])))

/-! ### String and path lemmas -/

lemma replaceFirst_prefix (pat repl x : Str) :
    replaceFirst pat repl (pat ++ x) = repl ++ x := by
  cases pat with
  | nil =>
    cases x with
    | nil => simp [replaceFirst]
    | cons c rest => simp [replaceFirst]
  | cons p ps =>
    have hpre : (p :: ps).isPrefixOf (p :: (ps ++ x)) = true :=
      List.isPrefixOf_iff_prefix.mpr (List.prefix_append (p :: ps) x)
    have heq : replaceFirst (p :: ps) repl (p :: (ps ++ x)) =
        if (p :: ps).isPrefixOf (p :: (ps ++ x)) then
          repl ++ (p :: (ps ++ x)).drop (p :: ps).length
        else p :: replaceFirst (p :: ps) repl (ps ++ x) := rfl
    show replaceFirst (p :: ps) repl (p :: (ps ++ x)) = repl ++ x
    rw [heq, if_pos hpre, show p :: (ps ++ x) = (p :: ps) ++ x from rfl, List.drop_left]

lemma replaceTsx_ts (p : Str) (c : Char) (hc : isLineTerminator c = false) :
    replaceTsx (p ++ (c :: 't' :: 's' :: [])) = p ++ ('.' :: 'j' :: 's' :: []) := by
  have hsplit : p ++ (c :: 't' :: 's' :: []) = (p ++ (c :: [])) ++ ('t' :: 's' :: []) := by
    simp
  have hlen : (p ++ (c :: 't' :: 's' :: [])).length = p.length + 3 := by simp
  have hd3 : (p ++ (c :: 't' :: 's' :: [])).drop (p.length + 3 - 3) =
      (c :: 't' :: 's' :: []) := by
    have : p.length + 3 - 3 = p.length := by omega
    rw [this, List.drop_left]
  have hd2 : (p ++ (c :: 't' :: 's' :: [])).drop (p.length + 3 - 2) =
      ('t' :: 's' :: []) := by
    have h1 : p.length + 3 - 2 = (p ++ (c :: [])).length := by simp
    rw [h1, hsplit, List.drop_left]
  have ht3 : (p ++ (c :: 't' :: 's' :: [])).take (p.length + 3 - 3) = p := by
    have : p.length + 3 - 3 = p.length := by omega
    rw [this, List.take_left]
  have hgd : (p ++ (c :: 't' :: 's' :: [])).getD (p.length + 3 - 3) ' ' = c := by
    have h1 : p.length + 3 - 3 = p.length := by omega
    rw [h1, List.getD_eq_getElem?_getD, List.getElem?_append_right (le_refl _)]
    simp
  rw [replaceTsx, hlen, hd3, hd2, ht3, hgd]
  rw [if_neg ?hneg, if_pos ⟨rfl, by omega, hc⟩]
  case hneg =>
    rintro ⟨h1, -, -⟩
    injection h1 with ha hb
    injection hb with hb1 hb2
    exact absurd hb1 (by decide)

lemma replaceTsx_tsx (p : Str) (c : Char) (hc : isLineTerminator c = false) :
    replaceTsx (p ++ (c :: 't' :: 's' :: 'x' :: [])) = p ++ ('.' :: 'j' :: 's' :: []) := by
  have hsplit : p ++ (c :: 't' :: 's' :: 'x' :: []) =
      (p ++ (c :: [])) ++ ('t' :: 's' :: 'x' :: []) := by simp
  have hlen : (p ++ (c :: 't' :: 's' :: 'x' :: [])).length = p.length + 4 := by simp
  have hd3 : (p ++ (c :: 't' :: 's' :: 'x' :: [])).drop (p.length + 4 - 3) =
      ('t' :: 's' :: 'x' :: []) := by
    have h1 : p.length + 4 - 3 = (p ++ (c :: [])).length := by simp
    rw [h1, hsplit, List.drop_left]
  have ht4 : (p ++ (c :: 't' :: 's' :: 'x' :: [])).take (p.length + 4 - 4) = p := by
    have : p.length + 4 - 4 = p.length := by omega
    rw [this, List.take_left]
  have hgd : (p ++ (c :: 't' :: 's' :: 'x' :: [])).getD (p.length + 4 - 4) ' ' = c := by
    have h1 : p.length + 4 - 4 = p.length := by omega
    rw [h1, List.getD_eq_getElem?_getD, List.getElem?_append_right (le_refl _)]
    simp
  rw [replaceTsx, hlen, hd3, ht4, hgd]
  rw [if_pos ⟨rfl, by omega, hc⟩]

lemma splitSlash_cons (c : Char) (rest : Str) :
    splitSlash (c :: rest) =
      if c = '/' then [] :: splitSlash rest else consHead c (splitSlash rest) := rfl

lemma splitSlash_ne_nil (p : Str) : splitSlash p ≠ [] := by
  induction p with
  | nil => simp [splitSlash]
  | cons c rest ih =>
    rw [splitSlash_cons]
    by_cases hc : c = '/'
    · simp [hc]
    · rw [if_neg hc]
      cases h : splitSlash rest with
      | nil => exact absurd h ih
      | cons s ss => simp [consHead]

lemma splitSlash_cons_slash (p : Str) : splitSlash ('/' :: p) = [] :: splitSlash p := rfl

lemma splitSlash_append_slash (a b : Str) :
    splitSlash (a ++ '/' :: b) = splitSlash a ++ splitSlash b := by
  induction a with
  | nil => simp [splitSlash]
  | cons c rest ih =>
    by_cases hc : c = '/'
    · subst hc
      rw [List.cons_append, splitSlash_cons_slash, splitSlash_cons_slash, ih,
        List.cons_append]
    · rw [List.cons_append, splitSlash_cons, if_neg hc, splitSlash_cons, if_neg hc, ih]
      cases h : splitSlash rest with
      | nil => exact absurd h (splitSlash_ne_nil rest)
      | cons s ss => simp [consHead]

lemma joinSegs_consHead (c : Char) (L : List Str) (h : L ≠ []) :
    joinSegs (consHead c L) = c :: joinSegs L := by
  cases L with
  | nil => exact absurd rfl h
  | cons s ss =>
    cases ss with
    | nil => rfl
    | cons t ts => rfl

lemma joinSegs_splitSlash (p : Str) : joinSegs (splitSlash p) = p := by
  induction p with
  | nil => rfl
  | cons c rest ih =>
    by_cases hc : c = '/'
    · subst hc
      rw [splitSlash_cons_slash]
      cases h : splitSlash rest with
      | nil => exact absurd h (splitSlash_ne_nil rest)
      | cons s ss =>
        rw [h] at ih
        show joinSegs ([] :: s :: ss) = '/' :: rest
        rw [joinSegs, ih]
        rfl
    · rw [splitSlash_cons, if_neg hc, joinSegs_consHead c _ (splitSlash_ne_nil rest), ih]

lemma joinSegs_append (A B : List Str) (hA : A ≠ []) (hB : B ≠ []) :
    joinSegs (A ++ B) = joinSegs A ++ '/' :: joinSegs B := by
  induction A with
  | nil => exact absurd rfl hA
  | cons s ss ih =>
    cases ss with
    | nil =>
      cases B with
      | nil => exact absurd rfl hB
      | cons t ts => rfl
    | cons a as =>
      have h1 : joinSegs ((s :: a :: as) ++ B) = s ++ '/' :: joinSegs ((a :: as) ++ B) := rfl
      have h2 : joinSegs (s :: a :: as) = s ++ '/' :: joinSegs (a :: as) := rfl
      rw [h1, ih (by simp), h2]
      simp

lemma normStep_plain (ar : Bool) (acc : List Str) (seg : Str)
    (h1 : seg ≠ []) (h2 : seg ≠ ('.' :: [])) (h3 : seg ≠ ('.' :: '.' :: [])) :
    normStep ar acc seg = acc ++ [seg] := by
  rw [normStep, if_neg (by tauto), if_neg h3]

lemma normStep_nil (ar : Bool) (acc : List Str) : normStep ar acc [] = acc := by
  simp [normStep]

lemma normFold (ar : Bool) (l : List Str)
    (h : ∀ seg ∈ l, seg ≠ ('.' :: []) ∧ seg ≠ ('.' :: '.' :: [])) :
    ∀ acc : List Str, l.foldl (normStep ar) acc = acc ++ l.filter (fun seg => !(seg == ([] : Str))) := by
  induction l with
  | nil => intro acc; simp
  | cons seg rest ih =>
    intro acc
    have hseg := h seg (by simp)
    by_cases hn : seg = []
    · subst hn
      rw [List.foldl_cons, normStep_nil, ih (fun g hg => h g (by simp [hg]))]
      simp
    · rw [List.foldl_cons, normStep_plain ar acc seg hn hseg.1 hseg.2,
        ih (fun g hg => h g (by simp [hg]))]
      have : List.filter (fun seg => !(seg == ([] : Str))) (seg :: rest) =
          seg :: rest.filter (fun seg => !(seg == ([] : Str))) := by
        simp [List.filter_cons, hn]
      rw [this]
      simp

lemma goodSegs_ne_nil {q : Str} (h : goodSegs q = true) : q ≠ [] := by
  intro hq
  subst hq
  exact absurd h (by decide)

lemma goodSegs_getLast {q : Str} (h : goodSegs q = true) : q.getLast? ≠ some '/' := by
  intro hlast
  rcases List.getLast?_eq_some_iff.mp hlast with ⟨q', hq⟩
  subst hq
  rw [goodSegs, show q' ++ ('/' :: []) = q' ++ '/' :: ([] : Str) from rfl,
    splitSlash_append_slash, List.all_append] at h
  exact absurd (Bool.and_elim_right h) (by decide)

lemma goodSegs_all {q : Str} (h : goodSegs q = true) :
    ∀ seg ∈ splitSlash q, seg ≠ [] ∧ seg ≠ ('.' :: []) ∧ seg ≠ ('.' :: '.' :: []) := by
  intro seg hseg
  have := List.all_eq_true.mp h seg hseg
  simp only [Bool.and_eq_true, beq_iff_eq, Bool.not_eq_true'] at this
  refine ⟨?_, ?_, ?_⟩
  · simpa using this.1.1
  · simpa using this.1.2
  · simpa using this.2

lemma filter_nonempty_of_goodSegs {q : Str} (h : goodSegs q = true) :
    (splitSlash q).filter (fun seg => !seg.isEmpty) = splitSlash q := by
  apply List.filter_eq_self.mpr
  intro seg hseg
  have := (goodSegs_all h seg hseg).1
  simp [List.isEmpty_iff, this]

/-- Joining an absolute directory with an absolute path whose segments are
plain (the `path.join(this.workDir, "/" + relative)` shape that `destination`
produces for files under the workspace root) concatenates them. -/
lemma pathJoin_abs_good (w q : Str) (hw : goodSegs w = true) (hq : goodSegs q = true) :
    pathJoin ('/' :: w) ('/' :: q) = ('/' :: w) ++ '/' :: q := by
  have hwne := goodSegs_ne_nil hw
  have hqne := goodSegs_ne_nil hq
  have hjoin : pathJoin ('/' :: w) ('/' :: q) =
      normalizePath (('/' :: w) ++ '/' :: ('/' :: q)) := by
    rw [pathJoin, if_neg (by simp), if_neg (by simp), if_neg (by simp)]
  set p : Str := ('/' :: w) ++ '/' :: ('/' :: q) with hp
  have hpne : p ≠ [] := by simp [hp]
  have habs : (p.head? == some '/') = true := by
    rw [hp, List.cons_append, List.head?_cons]
    simp
  have htrail : (p.getLast? == some '/') = false := by
    have hdecomp : p = (('/' :: w) ++ ('/' :: '/' :: [])) ++ q := by simp [hp]
    have hlast : p.getLast? = q.getLast? := by
      rw [hdecomp, List.getLast?_append,
        Option.or_of_isSome (List.getLast?_isSome.mpr hqne)]
    rw [hlast]
    exact beq_eq_false_iff_ne.mpr (goodSegs_getLast hq)
  have hsegs : splitSlash p = ([] :: splitSlash w) ++ ([] :: splitSlash q) := by
    rw [hp, splitSlash_append_slash, splitSlash_cons_slash, splitSlash_cons_slash]
  have hfold : (splitSlash p).foldl (normStep false) [] =
      splitSlash w ++ splitSlash q := by
    rw [hsegs]
    rw [normFold false _ ?hplain []]
    case hplain =>
      intro seg hseg
      rcases List.mem_append.mp hseg with hmem | hmem
      · rcases List.mem_cons.mp hmem with rfl | hmem
        · exact ⟨by simp, by simp⟩
        · exact ⟨(goodSegs_all hw seg hmem).2.1, (goodSegs_all hw seg hmem).2.2⟩
      · rcases List.mem_cons.mp hmem with rfl | hmem
        · exact ⟨by simp, by simp⟩
        · exact ⟨(goodSegs_all hq seg hmem).2.1, (goodSegs_all hq seg hmem).2.2⟩
    simp [List.filter_append, List.filter_cons,
      filter_nonempty_of_goodSegs hw, filter_nonempty_of_goodSegs hq]
  have hcore : joinSegs ((splitSlash p).foldl (normStep false) []) = w ++ '/' :: q := by
    rw [hfold, joinSegs_append _ _ (splitSlash_ne_nil w) (splitSlash_ne_nil q),
      joinSegs_splitSlash, joinSegs_splitSlash]
  have hassemble : ∀ core : Str, core ≠ [] → normAssemble true false core = '/' :: core := by
    intro core hc
    rw [normAssemble]
    simp [hc]
  rw [hjoin, normalizePath, if_neg hpne]
  rw [habs, htrail]
  simp only [Bool.not_true]
  rw [hcore, hassemble _ (by simp)]
  simp

/-- For a `.ts` file under the workspace root (with plain path segments),
`destination` maps `workspaceRoot ++ "/" ++ rel ++ ".ts"` to
`workDir ++ "/" ++ rel ++ ".js"`. -/
lemma destination_general_ts (w root rel : Str) (hw : goodSegs w = true)
    (hjs : goodSegs (rel ++ ('.' :: 'j' :: 's' :: [])) = true) :
    destination (initState ('/' :: root) ('/' :: w))
        (('/' :: root) ++ '/' :: (rel ++ ('.' :: 't' :: 's' :: []))) =
      ('/' :: w) ++ '/' :: (rel ++ ('.' :: 'j' :: 's' :: [])) := by
  have h1 : destination (initState ('/' :: root) ('/' :: w))
      (('/' :: root) ++ '/' :: (rel ++ ('.' :: 't' :: 's' :: []))) =
      pathJoin ('/' :: w)
        (replaceTsx (replaceFirst ('/' :: root) []
          (('/' :: root) ++ '/' :: (rel ++ ('.' :: 't' :: 's' :: []))))) := rfl
  rw [h1, replaceFirst_prefix, List.nil_append]
  have h2 : '/' :: (rel ++ ('.' :: 't' :: 's' :: [])) =
      ('/' :: rel) ++ ('.' :: 't' :: 's' :: []) := rfl
  rw [h2, replaceTsx_ts ('/' :: rel) '.' (by decide)]
  have h3 : ('/' :: rel) ++ ('.' :: 'j' :: 's' :: []) =
      '/' :: (rel ++ ('.' :: 'j' :: 's' :: [])) := rfl
  rw [h3, pathJoin_abs_good w _ hw hjs]

/-- Same as `destination_general_ts` but for a `.tsx` source file. -/
lemma destination_general_tsx (w root rel : Str) (hw : goodSegs w = true)
    (hjs : goodSegs (rel ++ ('.' :: 'j' :: 's' :: [])) = true) :
    destination (initState ('/' :: root) ('/' :: w))
        (('/' :: root) ++ '/' :: (rel ++ ('.' :: 't' :: 's' :: 'x' :: []))) =
      ('/' :: w) ++ '/' :: (rel ++ ('.' :: 'j' :: 's' :: [])) := by
  have h1 : destination (initState ('/' :: root) ('/' :: w))
      (('/' :: root) ++ '/' :: (rel ++ ('.' :: 't' :: 's' :: 'x' :: []))) =
      pathJoin ('/' :: w)
        (replaceTsx (replaceFirst ('/' :: root) []
          (('/' :: root) ++ '/' :: (rel ++ ('.' :: 't' :: 's' :: 'x' :: []))))) := rfl
  rw [h1, replaceFirst_prefix, List.nil_append]
  have h2 : '/' :: (rel ++ ('.' :: 't' :: 's' :: 'x' :: [])) =
      ('/' :: rel) ++ ('.' :: 't' :: 's' :: 'x' :: []) := rfl
  rw [h2, replaceTsx_tsx ('/' :: rel) '.' (by decide)]
  have h3 : ('/' :: rel) ++ ('.' :: 'j' :: 's' :: []) =
      '/' :: (rel ++ ('.' :: 'j' :: 's' :: [])) := rfl
  rw [h3, pathJoin_abs_good w _ hw hjs]

/-! ### Concrete fixtures used by counterexamples and witnesses -/

/-- The workspace root of the concrete fixtures. -/
def root0 : Str := ("/root").toList

/-- The work directory of the concrete fixtures. -/
def wd0 : Str := ("/out").toList

/-- A freshly constructed session over the concrete roots. -/
def initS : CompilerState := initState root0 wd0

/-- First member file of the fixture project. -/
def fA : Str := ("/root/a.ts").toList

/-- Second member file of the fixture project. -/
def fB : Str := ("/root/b.ts").toList

/-- A file that resolves to the fixture manifest without being one of its
member files. -/
def fC : Str := ("/root/c.ts").toList

/-- The fixture manifest path. -/
def t0 : Str := ("/root/tsconfig.json").toList

/-- A file with no discoverable manifest. -/
def fNo : Str := ("/elsewhere/x.ts").toList

/-- A fixture environment: `fA` and `fB` resolve to manifest `t0`, whose
project members are exactly `[fA, fB]`; every start, rebuild and dispose
succeeds. -/
def env0 : Env where
  findConfig := fun f => if f = fA ∨ f = fB then some t0 else none
  readConfig := fun m => if m = t0 then ([], [fA, fB]) else ((("error").toList) :: [], [])
  startOk := fun _ => true
  rebuildOk := fun _ => true
  disposeOk := fun _ => true

/-- Like `env0` but every `service.build` call fails. -/
def envStartFail : Env := { env0 with startOk := fun _ => false }

/-- Like `env0` but `fC` also resolves to `t0` (whose member list does not
contain `fC`). -/
def envC : Env := { env0 with
  findConfig := fun f => if f = fA ∨ f = fB ∨ f = fC then some t0 else none }

/-- The fixture session after one `compile(fA)`. -/
def s1c : CompilerState := run env0 initS ((Op.compile fA) :: [])

/-! ### Unfolding lemmas for the session operations -/

lemma getTSConfig_ok (env : Env) (s : CompilerState) (f m : Str)
    (hfind : env.findConfig f = some m) (herr : (env.readConfig m).1 = []) :
    getTSConfig env s f =
      ({ s with resolveCount := s.resolveCount + 1 },
        Except.ok (m, (env.readConfig m).2)) := by
  simp [getTSConfig, hfind, herr]

lemma getTSConfig_fst (env : Env) (s : CompilerState) (f : Str) :
    (getTSConfig env s f).1 = { s with resolveCount := s.resolveCount + 1 } := by
  rw [getTSConfig]
  cases h : env.findConfig f with
  | none => rfl
  | some m =>
    by_cases herr : (env.readConfig m).1 = []
    · simp [herr]
    · simp [herr]

lemma startBuilding_hit (env : Env) (s : CompilerState) (f : Str)
    (h : (s.fileMap f).isSome = true) :
    startBuilding env s f = (s, none) := by
  rw [startBuilding, if_pos h]

lemma startBuilding_resolveErr (env : Env) (s : CompilerState) (f : Str)
    (e : ResolveError) (hf : s.fileMap f = none)
    (he : (getTSConfig env s f).2 = Except.error e) :
    startBuilding env s f = ({ s with resolveCount := s.resolveCount + 1 }, some e) := by
  rcases hg : getTSConfig env s f with ⟨s₁, r⟩
  have h1 : s₁ = { s with resolveCount := s.resolveCount + 1 } := by
    have := getTSConfig_fst env s f
    rw [hg] at this
    exact this
  rw [hg] at he
  simp only at he
  subst he
  rw [startBuilding, if_neg (by simp [hf]), hg, h1]

lemma startBuilding_already (env : Env) (s : CompilerState) (f m : Str)
    (hf : s.fileMap f = none) (hfind : env.findConfig f = some m)
    (herr : (env.readConfig m).1 = []) (hts : (s.tsConfigMap m).isSome = true) :
    startBuilding env s f = ({ s with resolveCount := s.resolveCount + 1 }, none) := by
  rw [startBuilding, if_neg (by simp [hf]), getTSConfig_ok env s f m hfind herr]
  simp only
  rw [if_pos hts]

lemma startBuilding_fail (env : Env) (s : CompilerState) (f m : Str)
    (hf : s.fileMap f = none) (hfind : env.findConfig f = some m)
    (herr : (env.readConfig m).1 = []) (hts : s.tsConfigMap m = none)
    (hstart : env.startOk s.startCount = false) :
    startBuilding env s f =
      ({ s with
          resolveCount := s.resolveCount + 1
          startCount := s.startCount + 1
          errorLog := s.errorLog ++ [LogEntry.buildStartError s.startCount] }, none) := by
  rw [startBuilding, if_neg (by simp [hf]), getTSConfig_ok env s f m hfind herr]
  simp only
  rw [if_neg (by simp [hts])]
  simp [serviceBuild, hstart, reportESBuildErrors]

lemma startBuilding_fresh (env : Env) (s : CompilerState) (f m : Str)
    (hf : s.fileMap f = none) (hfind : env.findConfig f = some m)
    (herr : (env.readConfig m).1 = []) (hts : s.tsConfigMap m = none)
    (hstart : env.startOk s.startCount = true) :
    startBuilding env s f =
      (registerBuild
        { s with
            resolveCount := s.resolveCount + 1
            startCount := s.startCount + 1
            nextHandle := s.nextHandle + 1 }
        m (env.readConfig m).2 s.nextHandle, none) := by
  rw [startBuilding, if_neg (by simp [hf]), getTSConfig_ok env s f m hfind herr]
  simp only
  rw [if_neg (by simp [hts])]
  simp [serviceBuild, hstart, reportESBuildErrors]

lemma rebuildStep_eq (env : Env) (s : CompilerState) (b : Nat) :
    rebuildStep env s b =
      { s with
        rebuilt := s.rebuilt ++ [b]
        errorLog := s.errorLog ++
          (if env.rebuildOk b then [] else [LogEntry.rebuildError b]) } := by
  rw [rebuildStep]
  cases h : env.rebuildOk b <;> simp [reportESBuildErrors, h]

lemma rebuild_foldl (env : Env) (l : List Nat) : ∀ s : CompilerState,
    l.foldl (rebuildStep env) s =
      { s with
        rebuilt := s.rebuilt ++ l
        errorLog := s.errorLog ++
          (l.filter (fun b => !(env.rebuildOk b))).map LogEntry.rebuildError } := by
  induction l with
  | nil => intro s; simp
  | cons b rest ih =>
    intro s
    rw [List.foldl_cons, rebuildStep_eq, ih]
    cases h : env.rebuildOk b <;> simp [List.filter_cons, h]

/-! ### Claim theorems -/

/-- C4: `rebuild()` invokes `rebuild` on every live process handle; any
subset of the per-process rebuilds may fail, the failures are only logged,
the remaining invocations are still made, and the session's `rebuild()`
returns normally (it is a total function into `CompilerState`) with the
registry untouched. -/
theorem c4_rebuild_isolation (env : Env) (s : CompilerState) :
    (rebuildRun env s).rebuilt = s.rebuilt ++ s.builds ∧
    (rebuildRun env s).errorLog = s.errorLog ++
      ((s.builds.filter (fun b => !(env.rebuildOk b))).map LogEntry.rebuildError) ∧
    (rebuildRun env s).builds = s.builds ∧
    (rebuildRun env s).fileMap = s.fileMap ∧
    (rebuildRun env s).tsConfigMap = s.tsConfigMap ∧
    (rebuildRun env s).groupMap = s.groupMap := by
  rw [rebuildRun, rebuild_foldl]
  exact ⟨rfl, rfl, rfl, rfl, rfl, rfl⟩

/-- C5: when `compile(file)` resolves its config but the `service.build`
call fails, `compile` still returns the mapped output path successfully,
the failure is only logged, and the registry (all three maps, and the
builds list) is unchanged, so the manifest stays unregistered. -/
theorem c5_build_start_failure (env : Env) (s : CompilerState) (f m : Str)
    (hf : s.fileMap f = none) (hfind : env.findConfig f = some m)
    (herr : (env.readConfig m).1 = []) (hts : s.tsConfigMap m = none)
    (hstart : env.startOk s.startCount = false) :
    (compileRun env s f).2 = Except.ok (destination s f) ∧
    (compileRun env s f).1.fileMap = s.fileMap ∧
    (compileRun env s f).1.tsConfigMap = s.tsConfigMap ∧
    (compileRun env s f).1.groupMap = s.groupMap ∧
    (compileRun env s f).1.builds = s.builds ∧
    (compileRun env s f).1.errorLog =
      s.errorLog ++ [LogEntry.buildStartError s.startCount] := by
  rw [compileRun, startBuilding_fail env s f m hf hfind herr hts hstart]
  exact ⟨rfl, rfl, rfl, rfl, rfl, rfl⟩

theorem c5_build_start_failure_witness :
    (compileRun envStartFail initS fA).2 = Except.ok (destination initS fA) ∧
    (compileRun envStartFail initS fA).1.builds = initS.builds :=
  ⟨(c5_build_start_failure envStartFail initS fA t0 rfl (by decide) (by decide)
      rfl rfl).1,
    (c5_build_start_failure envStartFail initS fA t0 rfl (by decide) (by decide)
      rfl rfl).2.2.2.2.1⟩

/-- C6: for a file not present in `fileMap`, a config-resolution failure
(no manifest found, or non-empty diagnostics) propagates out of `compile`
unchanged, and all registry maps, the builds list, the start counter and
the error log are exactly as before the call. -/
theorem c6_resolve_error (env : Env) (s : CompilerState) (f : Str)
    (e : ResolveError) (hf : s.fileMap f = none)
    (he : (getTSConfig env s f).2 = Except.error e) :
    (compileRun env s f).2 = Except.error e ∧
    (compileRun env s f).1.fileMap = s.fileMap ∧
    (compileRun env s f).1.tsConfigMap = s.tsConfigMap ∧
    (compileRun env s f).1.groupMap = s.groupMap ∧
    (compileRun env s f).1.builds = s.builds ∧
    (compileRun env s f).1.startCount = s.startCount ∧
    (compileRun env s f).1.errorLog = s.errorLog ∧
    (compileRun env s f).1.resolveCount = s.resolveCount + 1 := by
  rw [compileRun, startBuilding_resolveErr env s f e hf he]
  exact ⟨rfl, rfl, rfl, rfl, rfl, rfl, rfl, rfl⟩

theorem c6_resolve_error_witness :
    (compileRun env0 initS fNo).2 =
      Except.error (ResolveError.configNotFound fNo) ∧
    (compileRun env0 initS fNo).1.builds = initS.builds :=
  ⟨(c6_resolve_error env0 initS fNo (ResolveError.configNotFound fNo) rfl
      rfl).1,
    (c6_resolve_error env0 initS fNo (ResolveError.configNotFound fNo) rfl
      rfl).2.2.2.2.1⟩

/-- C8: under the precondition that `groupMap[file]` exists, `fileGroup`
returns the association list with exactly one entry `g → destination(g)` for
every group member `g`, in the group's original order. -/
theorem c8_file_group (s : CompilerState) (f : Str) (G : List Str)
    (h : s.groupMap f = some G) :
    ∃ l, fileGroup s f = some l ∧ l.length = G.length ∧
      ∀ i : Nat, l[i]? = (G[i]?).map (fun g => (g, destination s g)) := by
  refine ⟨G.map (fun g => (g, destination s g)), ?_, by simp, ?_⟩
  · rw [fileGroup, h]
    rfl
  · intro i
    rw [List.getElem?_map]

theorem c8_file_group_witness :
    s1c.groupMap fA = some (fA :: fB :: []) ∧
    (∃ l, fileGroup s1c fA = some l ∧ l.length = (fA :: fB :: []).length ∧
      ∀ i : Nat, l[i]? = ((fA :: fB :: [])[i]?).map
        (fun g => (g, destination s1c g))) :=
  ⟨by decide, c8_file_group s1c fA (fA :: fB :: []) (by decide)⟩

/-- The property claim C1 asserts of `invalidateBuildSet` for every session
state: all live handles are disposed and afterwards all three registry maps
(`fileMap`, `tsConfigMap`, `groupMap`) retain no entry, regardless of
disposal failures. -/
def InvalidateClearsAll (env : Env) (s : CompilerState) : Prop :=
  (∀ b ∈ s.builds, b ∈ (invalidateRun env s).1.disposed) ∧
  (∀ g, (invalidateRun env s).1.fileMap g = none) ∧
  (∀ g, (invalidateRun env s).1.tsConfigMap g = none) ∧
  (∀ g, (invalidateRun env s).1.groupMap g = none)

/-- C1 fails on the code: after `compile(fA)` and a fully successful
`invalidateBuildSet()`, the `groupMap` still holds the group of `fA` — the
source clears `builds`, `fileMap` and `tsConfigMap` but never `groupMap`. -/
theorem c1_counterexample :
    ¬ (∀ (env : Env) (root wd : Str) (ops : List Op),
        InvalidateClearsAll env (run env (initState root wd) ops)) := by
  intro h
  exact absurd ((h env0 root0 wd0 ((Op.compile fA) :: [])).2.2.2 fA) (by decide)

/-- C1 amended: `invalidateBuildSet` issues a dispose for every live handle;
when every disposal succeeds it empties `builds`, `fileMap` and
`tsConfigMap` but leaves `groupMap` untouched; when any disposal fails the
rejection propagates and none of the three clearing assignments runs. -/
theorem c1_invalidate_behavior (env : Env) (s : CompilerState) :
    (∀ b ∈ s.builds, b ∈ (invalidateRun env s).1.disposed) ∧
    ((invalidateRun env s).2 = true →
      (invalidateRun env s).1.builds = [] ∧
      (∀ g, (invalidateRun env s).1.fileMap g = none) ∧
      (∀ g, (invalidateRun env s).1.tsConfigMap g = none) ∧
      (invalidateRun env s).1.groupMap = s.groupMap) ∧
    ((invalidateRun env s).2 = false →
      (invalidateRun env s).1.builds = s.builds ∧
      (invalidateRun env s).1.fileMap = s.fileMap ∧
      (invalidateRun env s).1.tsConfigMap = s.tsConfigMap ∧
      (invalidateRun env s).1.groupMap = s.groupMap) ∧
    ((invalidateRun env s).2 = false ↔ ∃ b ∈ s.builds, env.disposeOk b = false) := by
  by_cases hall : s.builds.all (fun b => env.disposeOk b) = true
  · have he : invalidateRun env s =
        ({ s with
            disposed := s.disposed ++ s.builds
            builds := []
            fileMap := fun _ => none
            tsConfigMap := fun _ => none }, true) := by
      simp only [invalidateRun]
      rw [if_pos hall]
    rw [he]
    refine ⟨?_, ?_, ?_, ?_⟩
    · intro b hb
      simp [hb]
    · intro _
      exact ⟨rfl, fun g => rfl, fun g => rfl, rfl⟩
    · intro hc
      exact absurd hc (by simp)
    · constructor
      · intro hc
        exact absurd hc (by simp)
      · rintro ⟨b, hb, hbad⟩
        have := List.all_eq_true.mp hall b hb
        rw [hbad] at this
        exact absurd this (by simp)
  · have hfl : s.builds.all (fun b => env.disposeOk b) = false := by
      revert hall
      cases s.builds.all (fun b => env.disposeOk b) <;> simp
    have he : invalidateRun env s =
        ({ s with disposed := s.disposed ++ s.builds }, false) := by
      simp only [invalidateRun]
      rw [if_neg hall]
    rw [he]
    refine ⟨?_, ?_, ?_, ?_⟩
    · intro b hb
      simp [hb]
    · intro hc
      exact absurd hc (by simp)
    · intro _
      exact ⟨rfl, rfl, rfl, rfl⟩
    · constructor
      · intro _
        obtain ⟨b, hb, hn⟩ := List.all_eq_false.mp hfl
        exact ⟨b, hb, by simpa using hn⟩
      · intro _
        rfl

theorem c1_invalidate_behavior_witness :
    (∀ g, (invalidateRun env0 s1c).1.tsConfigMap g = none) ∧
    (invalidateRun env0 s1c).1.groupMap = s1c.groupMap :=
  ⟨((c1_invalidate_behavior env0 s1c).2.1 (by decide)).2.2.1,
    ((c1_invalidate_behavior env0 s1c).2.1 (by decide)).2.2.2⟩

/-- C10: a successful `compile(file)` need not register `file` itself: if
the resolved member list does not contain `file`, or the manifest already
has a live process, then `fileMap[file]` and `groupMap[file]` stay absent,
a later `compile(file)` re-runs config resolution (the resolve counter
advances on every such call), no second process is started in the
already-registered case, and `fileGroup(file)`'s precondition is never
established. -/
theorem c10_unregistered_file (env : Env) (s : CompilerState) (f m : Str)
    (hf : s.fileMap f = none) (hg : s.groupMap f = none)
    (hfind : env.findConfig f = some m) (herr : (env.readConfig m).1 = [])
    (hcase : f ∉ (env.readConfig m).2 ∨ (s.tsConfigMap m).isSome = true) :
    (compileRun env s f).2 = Except.ok (destination s f) ∧
    (compileRun env s f).1.fileMap f = none ∧
    (compileRun env s f).1.groupMap f = none ∧
    fileGroup (compileRun env s f).1 f = none ∧
    (compileRun env s f).1.resolveCount = s.resolveCount + 1 ∧
    ((s.tsConfigMap m).isSome = true →
      (compileRun env s f).1.startCount = s.startCount) := by
  by_cases hts : (s.tsConfigMap m).isSome = true
  · rw [compileRun, startBuilding_already env s f m hf hfind herr hts]
    exact ⟨rfl, hf, hg, by simp [fileGroup, hg], rfl, fun _ => rfl⟩
  · have hts2 : s.tsConfigMap m = none := by
      revert hts
      cases s.tsConfigMap m <;> simp
    have hfL : f ∉ (env.readConfig m).2 := hcase.resolve_right hts
    by_cases hstart : env.startOk s.startCount = true
    · rw [compileRun, startBuilding_fresh env s f m hf hfind herr hts2 hstart]
      refine ⟨rfl, ?_, ?_, ?_, rfl, fun hh => absurd hh hts⟩
      · show (if f ∈ (env.readConfig m).2 then some s.nextHandle else s.fileMap f) = none
        rw [if_neg hfL, hf]
      · show (if f ∈ (env.readConfig m).2 then some ((env.readConfig m).2)
            else s.groupMap f) = none
        rw [if_neg hfL, hg]
      · have hgm : (registerBuild
            { s with
                resolveCount := s.resolveCount + 1
                startCount := s.startCount + 1
                nextHandle := s.nextHandle + 1 }
            m (env.readConfig m).2 s.nextHandle).groupMap f = none := by
          show (if f ∈ (env.readConfig m).2 then some ((env.readConfig m).2)
              else s.groupMap f) = none
          rw [if_neg hfL, hg]
        simp [fileGroup, hgm]
    · have hstart2 : env.startOk s.startCount = false := by
        revert hstart
        cases env.startOk s.startCount <;> simp
      rw [compileRun, startBuilding_fail env s f m hf hfind herr hts2 hstart2]
      exact ⟨rfl, hf, hg, by simp [fileGroup, hg], rfl, fun hh => absurd hh hts⟩

theorem c10_unregistered_file_witness :
    (compileRun envC initS fC).2 = Except.ok (destination initS fC) ∧
    (compileRun envC initS fC).1.fileMap fC = none ∧
    fileGroup (compileRun envC initS fC).1 fC = none :=
  ⟨(c10_unregistered_file envC initS fC t0 rfl rfl (by decide) (by decide)
      (Or.inl (by decide))).1,
    (c10_unregistered_file envC initS fC t0 rfl rfl (by decide) (by decide)
      (Or.inl (by decide))).2.1,
    (c10_unregistered_file envC initS fC t0 rfl rfl (by decide) (by decide)
      (Or.inl (by decide))).2.2.2.1⟩

/-- C7: with `workspaceRoot = "/root"` and `workDir = "/out"`, `destination`
maps `/root/src/a.ts` to `/out/src/a.js` and `/root/src/b.tsx` to
`/out/src/b.js`; in general, for a file under the workspace root (both roots
absolute and all path segments plain), the result joins the work dir with
the file's path relative to the workspace root, the `.ts`/`.tsx` extension
rewritten to `.js`. -/
theorem c7_path_mapping :
    destination initS (("/root/src/a.ts").toList) = ("/out/src/a.js").toList ∧
    destination initS (("/root/src/b.tsx").toList) = ("/out/src/b.js").toList ∧
    (∀ w root rel : Str, goodSegs w = true →
      goodSegs (rel ++ ('.' :: 'j' :: 's' :: [])) = true →
      destination (initState ('/' :: root) ('/' :: w))
          (('/' :: root) ++ '/' :: (rel ++ ('.' :: 't' :: 's' :: []))) =
        ('/' :: w) ++ '/' :: (rel ++ ('.' :: 'j' :: 's' :: []))) ∧
    (∀ w root rel : Str, goodSegs w = true →
      goodSegs (rel ++ ('.' :: 'j' :: 's' :: [])) = true →
      destination (initState ('/' :: root) ('/' :: w))
          (('/' :: root) ++ '/' :: (rel ++ ('.' :: 't' :: 's' :: 'x' :: []))) =
        ('/' :: w) ++ '/' :: (rel ++ ('.' :: 'j' :: 's' :: []))) :=
  ⟨by decide, by decide,
    fun w root rel hw hjs => destination_general_ts w root rel hw hjs,
    fun w root rel hw hjs => destination_general_tsx w root rel hw hjs⟩

theorem c7_path_mapping_witness :
    goodSegs (("out").toList) = true ∧
    goodSegs ((("src/a").toList) ++ ('.' :: 'j' :: 's' :: [])) = true ∧
    destination (initState ('/' :: ("root").toList) ('/' :: ("out").toList))
        (('/' :: ("root").toList) ++
          '/' :: ((("src/a").toList) ++ ('.' :: 't' :: 's' :: []))) =
      ('/' :: ("out").toList) ++
        '/' :: ((("src/a").toList) ++ ('.' :: 'j' :: 's' :: [])) :=
  ⟨by decide, by decide,
    c7_path_mapping.2.2.1 (("out").toList) (("root").toList) (("src/a").toList)
      (by decide) (by decide)⟩

/-- C9 fails on the code as stated: the JS dot without the `s` flag does not
match line terminators, so a filename ending in a newline followed by `ts`
is left unchanged by `.replace(/.tsx?$/, ".js")` — the rewrite does not fire
for an arbitrary single character. -/
theorem c9_counterexample :
    ¬ (∀ (p : Str) (c : Char),
        replaceTsx (p ++ (c :: 't' :: 's' :: [])) =
          p ++ ('.' :: 'j' :: 's' :: [])) := by
  intro h
  exact absurd (h ('f' :: 'o' :: []) '\n') (by decide)

/-- C9 amended: the regex dot in `.replace(/.tsx?$/, ".js")` is unescaped,
so the rewrite fires on any filename ending in a single character other than
a line terminator (LF, CR, U+2028, U+2029) followed by `ts` (or `tsx`),
replacing those final three (or four) characters with `.js` — not only a
literal `.ts`/`.tsx` extension; in particular `/root/src/fonts` is mapped to
`/out/src/fo.js`. -/
theorem c9_unescaped_dot :
    destination initS (("/root/src/fonts").toList) = ("/out/src/fo.js").toList ∧
    (∀ (p : Str) (c : Char), isLineTerminator c = false →
      replaceTsx (p ++ (c :: 't' :: 's' :: [])) = p ++ ('.' :: 'j' :: 's' :: [])) ∧
    (∀ (p : Str) (c : Char), isLineTerminator c = false →
      replaceTsx (p ++ (c :: 't' :: 's' :: 'x' :: [])) =
        p ++ ('.' :: 'j' :: 's' :: [])) :=
  ⟨by decide, fun p c hc => replaceTsx_ts p c hc, fun p c hc => replaceTsx_tsx p c hc⟩

theorem c9_unescaped_dot_witness :
    isLineTerminator 'n' = false ∧
    replaceTsx ((("fo").toList) ++ ('n' :: 't' :: 's' :: [])) =
      (("fo").toList) ++ ('.' :: 'j' :: 's' :: []) :=
  ⟨by decide, c9_unescaped_dot.2.1 (("fo").toList) 'n' (by decide)⟩

/-! ### C3: one start per project across sequential compiles -/

lemma compile_after_registered (env : Env) (s : CompilerState) (f m : Str)
    (hfind : env.findConfig f = some m) (herr : (env.readConfig m).1 = [])
    (hts : (s.tsConfigMap m).isSome = true) :
    (compileRun env s f).1.builds = s.builds ∧
    (compileRun env s f).1.startCount = s.startCount ∧
    (compileRun env s f).1.tsConfigMap = s.tsConfigMap ∧
    (compileRun env s f).1.fileMap = s.fileMap ∧
    (compileRun env s f).1.groupMap = s.groupMap := by
  by_cases hf : (s.fileMap f).isSome = true
  · rw [compileRun, startBuilding_hit env s f hf]
    exact ⟨rfl, rfl, rfl, rfl, rfl⟩
  · have hf2 : s.fileMap f = none := by
      revert hf
      cases s.fileMap f <;> simp
    rw [compileRun, startBuilding_already env s f m hf2 hfind herr hts]
    exact ⟨rfl, rfl, rfl, rfl, rfl⟩

lemma run_compiles_registered (env : Env) (m : Str) (b : Nat) :
    ∀ (fs : List Str) (s : CompilerState),
      (∀ f ∈ fs, env.findConfig f = some m ∧ (env.readConfig m).1 = []) →
      s.tsConfigMap m = some b →
      (run env s (fs.map Op.compile)).builds = s.builds ∧
      (run env s (fs.map Op.compile)).startCount = s.startCount ∧
      (run env s (fs.map Op.compile)).tsConfigMap m = some b := by
  intro fs
  induction fs with
  | nil => exact fun s _ hts => ⟨rfl, rfl, hts⟩
  | cons f rest ih =>
    intro s hall hts
    have h1 := compile_after_registered env s f m (hall f (by simp)).1
      (hall f (by simp)).2 (by rw [hts]; rfl)
    have hstep : run env s ((f :: rest).map Op.compile) =
        run env ((compileRun env s f).1) (rest.map Op.compile) := rfl
    have hts2 : (compileRun env s f).1.tsConfigMap m = some b := by
      rw [h1.2.2.1, hts]
    obtain ⟨hb, hsc, htm⟩ := ih ((compileRun env s f).1)
      (fun g hg => hall g (by simp [hg])) hts2
    rw [hstep]
    exact ⟨by rw [hb, h1.1], by rw [hsc, h1.2.1], htm⟩

/-- C3: in a sequence of sequential `compile` calls (no `invalidate`) whose
files all resolve to the same manifest `m`, and whose first `service.build`
succeeds, exactly one start invocation happens and exactly one live process
remains registered for that project: `tsConfigMap m` holds the single handle
and the builds list is exactly that handle. -/
theorem c3_single_start (env : Env) (root wd m : Str) (f0 : Str)
    (rest : List Str)
    (h0 : env.findConfig f0 = some m ∧ (env.readConfig m).1 = [])
    (hall : ∀ f ∈ rest, env.findConfig f = some m ∧ (env.readConfig m).1 = [])
    (hok : env.startOk 0 = true) :
    (run env (initState root wd) ((f0 :: rest).map Op.compile)).startCount = 1 ∧
    (run env (initState root wd) ((f0 :: rest).map Op.compile)).tsConfigMap m =
      some 0 ∧
    (run env (initState root wd) ((f0 :: rest).map Op.compile)).builds =
      (0 :: []) := by
  have hfr := startBuilding_fresh env (initState root wd) f0 m rfl h0.1 h0.2 rfl hok
  have hc1 : (compileRun env (initState root wd) f0).1 =
      registerBuild
        { initState root wd with
            resolveCount := 1
            startCount := 1
            nextHandle := 1 }
        m (env.readConfig m).2 0 := by
    rw [compileRun, hfr]
    rfl
  have hstep : run env (initState root wd) ((f0 :: rest).map Op.compile) =
      run env ((compileRun env (initState root wd) f0).1) (rest.map Op.compile) := rfl
  have htsReg : (compileRun env (initState root wd) f0).1.tsConfigMap m = some 0 := by
    rw [hc1]
    show (if m = m then some 0 else (initState root wd).tsConfigMap m) = some 0
    rw [if_pos rfl]
  obtain ⟨hb, hsc, htm⟩ := run_compiles_registered env m 0 rest
    ((compileRun env (initState root wd) f0).1) hall htsReg
  refine ⟨?_, ?_, ?_⟩
  · rw [hstep, hsc, hc1]
    rfl
  · rw [hstep]
    exact htm
  · rw [hstep, hb, hc1]
    rfl

theorem c3_single_start_witness :
    (run env0 (initState root0 wd0)
        ((fA :: fB :: fA :: []).map Op.compile)).startCount = 1 ∧
    (run env0 (initState root0 wd0)
        ((fA :: fB :: fA :: []).map Op.compile)).tsConfigMap t0 = some 0 ∧
    (run env0 (initState root0 wd0)
        ((fA :: fB :: fA :: []).map Op.compile)).builds = (0 :: []) :=
  c3_single_start env0 root0 wd0 t0 fA (fB :: fA :: [])
    (by decide) (by decide) rfl

/-! ### C2: the registry invariant -/

/-- The invariant that claim C2 asserts of every reachable state: a file's
group contains the file, and all group members share its (defined) process
handle. -/
def RegistryInvariant (s : CompilerState) : Prop :=
  ∀ f G, s.groupMap f = some G →
    f ∈ G ∧ ∀ g ∈ G, (s.fileMap g).isSome = true ∧ s.fileMap g = s.fileMap f

/-- Distinct manifests have disjoint member lists.  Without this the source
lets a later project steal `fileMap` entries from an earlier overlapping
one. -/
def DisjointProjects (env : Env) : Prop :=
  ∀ m₁ m₂ : Str, m₁ ≠ m₂ →
    ∀ g, g ∈ (env.readConfig m₁).2 → g ∉ (env.readConfig m₂).2

/-- The inductive strengthening of the registry invariant: every group is
the member list of some registered manifest whose handle is shared by every
member. -/
def RegInv (env : Env) (s : CompilerState) : Prop :=
  ∀ f G, s.groupMap f = some G →
    f ∈ G ∧ ∃ m b, (env.readConfig m).2 = G ∧ s.tsConfigMap m = some b ∧
      ∀ g ∈ G, s.fileMap g = some b

lemma regInv_initState (env : Env) (root wd : Str) :
    RegInv env (initState root wd) := by
  intro f G h
  exact absurd h (by simp [initState])

lemma regInv_compile (env : Env) (hdisj : DisjointProjects env)
    (s : CompilerState) (f : Str) (hinv : RegInv env s) :
    RegInv env (compileRun env s f).1 := by
  by_cases hf : (s.fileMap f).isSome = true
  · rw [compileRun, startBuilding_hit env s f hf]
    exact hinv
  · have hf2 : s.fileMap f = none := by
      revert hf
      cases s.fileMap f <;> simp
    cases hfind : env.findConfig f with
    | none =>
      have he : (getTSConfig env s f).2 =
          Except.error (ResolveError.configNotFound f) := by
        simp [getTSConfig, hfind]
      rw [compileRun, startBuilding_resolveErr env s f _ hf2 he]
      exact hinv
    | some m =>
      by_cases herr : (env.readConfig m).1 = []
      · by_cases hts : (s.tsConfigMap m).isSome = true
        · rw [compileRun, startBuilding_already env s f m hf2 hfind herr hts]
          exact hinv
        · have hts2 : s.tsConfigMap m = none := by
            revert hts
            cases s.tsConfigMap m <;> simp
          by_cases hstart : env.startOk s.startCount = true
          · rw [compileRun, startBuilding_fresh env s f m hf2 hfind herr hts2 hstart]
            intro g G hG
            by_cases hgL : g ∈ (env.readConfig m).2
            · have hGeq : G = (env.readConfig m).2 := by
                have h2 : (if g ∈ (env.readConfig m).2
                    then some ((env.readConfig m).2) else s.groupMap g) = some G := hG
                rw [if_pos hgL] at h2
                exact (Option.some.inj h2).symm
              subst hGeq
              refine ⟨hgL, m, s.nextHandle, rfl, ?_, ?_⟩
              · show (if m = m then some s.nextHandle else s.tsConfigMap m) =
                  some s.nextHandle
                rw [if_pos rfl]
              · intro g2 hg2
                show (if g2 ∈ (env.readConfig m).2 then some s.nextHandle
                    else s.fileMap g2) = some s.nextHandle
                rw [if_pos hg2]
            · have hGold : s.groupMap g = some G := by
                have h2 : (if g ∈ (env.readConfig m).2
                    then some ((env.readConfig m).2) else s.groupMap g) = some G := hG
                rw [if_neg hgL] at h2
                exact h2
              obtain ⟨hmem, m2, b2, hL2, hts3, hfm2⟩ := hinv g G hGold
              have hmne : m2 ≠ m := by
                intro hcontra
                subst hcontra
                rw [hts3] at hts2
                cases hts2
              refine ⟨hmem, m2, b2, hL2, ?_, ?_⟩
              · show (if m2 = m then some s.nextHandle else s.tsConfigMap m2) =
                  some b2
                rw [if_neg hmne, hts3]
              · intro g2 hg2
                have hg2notL : g2 ∉ (env.readConfig m).2 :=
                  hdisj m2 m hmne g2 (by rw [hL2]; exact hg2)
                show (if g2 ∈ (env.readConfig m).2 then some s.nextHandle
                    else s.fileMap g2) = some b2
                rw [if_neg hg2notL]
                exact hfm2 g2 hg2
          · have hstart2 : env.startOk s.startCount = false := by
              revert hstart
              cases env.startOk s.startCount <;> simp
            rw [compileRun, startBuilding_fail env s f m hf2 hfind herr hts2 hstart2]
            exact hinv
      · have he : (getTSConfig env s f).2 =
            Except.error (ResolveError.configParseError (env.readConfig m).1) := by
          simp [getTSConfig, hfind, herr]
        rw [compileRun, startBuilding_resolveErr env s f _ hf2 he]
        exact hinv

lemma regInv_rebuild (env : Env) (s : CompilerState) (hinv : RegInv env s) :
    RegInv env (rebuildRun env s) := by
  rw [rebuildRun, rebuild_foldl]
  exact hinv

lemma regInv_run (env : Env) (hdisj : DisjointProjects env) :
    ∀ ops : List Op, Op.invalidate ∉ ops →
      ∀ s : CompilerState, RegInv env s → RegInv env (run env s ops) := by
  intro ops
  induction ops with
  | nil => exact fun _ s h => h
  | cons op rest ih =>
    intro hni s h
    have hni2 : Op.invalidate ∉ rest := fun hc => hni (by simp [hc])
    have hstep : run env s (op :: rest) = run env (runOp env s op) rest := rfl
    rw [hstep]
    apply ih hni2
    cases op with
    | compile f => exact regInv_compile env hdisj s f h
    | rebuild => exact regInv_rebuild env s h
    | invalidate => exact absurd (by simp) hni

/-- C2 fails on the code: `invalidateBuildSet` clears `fileMap` but not
`groupMap`, so after `compile(fA)` followed by `invalidate()` the file `fA`
still has a group while `fileMap[fA]` is undefined — the invariant does not
hold in every reachable state. -/
theorem c2_counterexample :
    ¬ (∀ (env : Env) (root wd : Str) (ops : List Op),
        RegistryInvariant (run env (initState root wd) ops)) := by
  intro h
  have h2 := h env0 root0 wd0 ((Op.compile fA) :: Op.invalidate :: []) fA
    (fA :: fB :: []) (by decide)
  exact absurd (h2.2 fA (by simp)).1 (by decide)

lemma env0_disjoint : DisjointProjects env0 := by
  intro m₁ m₂ hne g h₁ h₂
  by_cases hm₁ : m₁ = t0
  · by_cases hm₂ : m₂ = t0
    · exact hne (hm₁.trans hm₂.symm)
    · rw [show env0.readConfig m₂ = ((("error").toList) :: [], []) from by
        simp [env0, hm₂]] at h₂
      exact absurd h₂ (by simp)
  · rw [show env0.readConfig m₁ = ((("error").toList) :: [], []) from by
      simp [env0, hm₁]] at h₁
    exact absurd h₁ (by simp)

/-- C2 amended: the registry invariant holds in every state reachable by
compile/rebuild sequences without `invalidate`, provided distinct manifests
have disjoint member lists; `invalidate` breaks it because `groupMap` is
never cleared (see the counterexample), and overlapping member lists would
let a later project overwrite an earlier project's `fileMap` entries. -/
theorem c2_registry_invariant (env : Env) (hdisj : DisjointProjects env)
    (root wd : Str) (ops : List Op) (hni : Op.invalidate ∉ ops) :
    RegistryInvariant (run env (initState root wd) ops) := by
  have hreg := regInv_run env hdisj ops hni (initState root wd)
    (regInv_initState env root wd)
  intro f G hG
  obtain ⟨hmem, m, b, hL, hts, hfm⟩ := hreg f G hG
  refine ⟨hmem, ?_⟩
  intro g hg
  rw [hfm g hg, hfm f hmem]
  exact ⟨rfl, rfl⟩

theorem c2_registry_invariant_witness :
    DisjointProjects env0 ∧
    RegistryInvariant (run env0 (initState root0 wd0) ((Op.compile fA) :: [])) :=
  ⟨env0_disjoint,
    c2_registry_invariant env0 env0_disjoint root0 wd0 ((Op.compile fA) :: [])
      (by decide)⟩

end EsbuildDev
